import Mathlib

/-!
# Verification of the hecto text editor core

A shallow embedding of the hecto editor (`src/document.rs`, `src/editor.rs`)
in Lean 4, together with theorems settling the specification claims about the
line buffer (`Document`), search, highlighting bookkeeping, saving, the modal
cursor model and the undo/redo version stack (`Editor`).

Rust `usize` arithmetic that the source performs with `saturating_sub` /
`saturating_add` is modelled with `Nat` subtraction (which saturates at 0)
and `Nat` addition.  A Rust panic (out-of-bounds `Vec::splice`) is modelled
by an `Option` result, `none` meaning the call panics.

The repository files `row.rs`, `filetype.rs` and the highlighting tokenizer
are not part of the provided sources; where a claim depends on them they are
modelled from the specification (each such definition carries a doc comment
saying so).  A grapheme cluster is modelled as a `Char`: the sources treat
graphemes as opaque editing units, so their internal structure is irrelevant
to every claim handled here.
-/

/-- Search direction, from `editor.rs` (`enum SearchDirection`). -/
inductive SearchDirection where
  | forward
  | backward
deriving DecidableEq, Repr

/-- Editor mode, from `editor.rs` (`enum Mode`). -/
inductive Mode where
  | insert
  | normal
  | replace
  | visual
deriving DecidableEq, Repr

/-- Buffer position, from `editor.rs` (`struct Position`): `x` is a grapheme
offset, `y` a line index. -/
structure Position where
  x : Nat
  y : Nat
deriving DecidableEq, Repr

/-- Cursor position with the sticky column `max_x`, from `editor.rs`
(`struct CursorPosition`). -/
structure CursorPosition where
  x : Nat
  y : Nat
  max_x : Nat
deriving DecidableEq, Repr

/-- The subset of `termion::event::Key` values that `Editor::move_cursor`
inspects; every other key is `other` (the `_ => ()` arm). -/
inductive MKey where
  | up
  | down
  | left
  | right
  | pageUp
  | pageDown
  | home
  | endKey
  | other
deriving DecidableEq, Repr

/-- A grapheme cluster, the opaque editing unit of §3 / the glossary:
modelled as a `Char`, since the sources only move graphemes around whole. -/
abbrev Grapheme := Char

/-- Modelled from the spec: `row.rs` is not among the provided sources.
Per §3, a Line is an ordered sequence of grapheme clusters with a
`highlighted` cache-validity flag (`is_highlighted`) and a `dirty` diff
marker used for visual dirty-row coloring. -/
structure Row where
  chars : List Grapheme
  is_highlighted : Bool
  dirty : Bool
deriving DecidableEq, Repr

namespace Row

/-- Modelled from the spec: `Row::default()` is the empty line. -/
def default : Row := ⟨[], false, false⟩

/-- Modelled from the spec (§4.1 `from(text)`): construct a Line from a text
slice; grapheme clusters of the model are its characters. -/
def from_ (s : String) : Row := ⟨s.data, false, false⟩

/-- Grapheme length of the line (§3: derived `length` = grapheme count). -/
def len (r : Row) : Nat := r.chars.length

/-- Modelled from the spec (§4.1 `insert(x, ch)`): insert one character at
grapheme offset `x`; offsets at or past the end append.  Editing marks the
line's diff marker. -/
def insert (r : Row) (x : Nat) (c : Grapheme) : Row :=
  { r with chars := r.chars.take x ++ c :: r.chars.drop x, dirty := true }

/-- Modelled from the spec (§4.1 `delete(x) -> removed_count`): remove the
grapheme at offset `x`; no-op returning 0 when `x >= length`. -/
def delete (r : Row) (x : Nat) : Row × Nat :=
  if x ≥ r.len then (r, 0)
  else ({ r with chars := r.chars.take x ++ r.chars.drop (x + 1), dirty := true }, 1)

/-- Modelled from the spec (§4.1 `split(x)`): truncate to `[0,x)`, return the
new Line holding `[x,length)`; both halves become highlight-stale edited
lines. -/
def split (r : Row) (x : Nat) : Row × Row :=
  ({ r with chars := r.chars.take x, is_highlighted := false, dirty := true },
   ⟨r.chars.drop x, false, true⟩)

/-- Modelled from the spec (§4.1 `append(other)`): concatenate another Line's
content onto this one. -/
def append (r other : Row) : Row :=
  { r with chars := r.chars ++ other.chars, dirty := true }

/-- Modelled from the spec (§4.2 `save`, §3): `Row::save` resets the per-line
dirty diff marker after the row has been written out. -/
def save (r : Row) : Row := { r with dirty := false }

end Row

/-- Modelled from the spec: `filetype.rs` is not among the provided sources.
§4.2 `open` detects the file type from the path (the only profile the spec
names is Rust). -/
def FileType.from_ (name : String) : String :=
  if name.endsWith ".rs" then "Rust" else "No filetype"

/-- The document (line buffer), from `document.rs` (`struct Document`). -/
structure Document where
  rows : List Row
  file_name : Option String
  dirty : Bool
  file_type : String
deriving DecidableEq, Repr

namespace Document

/-- `Document::default()`. -/
def default : Document := ⟨[], none, false, "No filetype"⟩

/-- `impl Clone for Document` in `document.rs`: a clone copies rows, file
name and file type but resets `dirty` to `false`. -/
def clone (d : Document) : Document := { d with dirty := false }

/-- `Document::len`. -/
def len (d : Document) : Nat := d.rows.length

/-- `Document::row`. -/
def row (d : Document) (index : Nat) : Option Row := d.rows[index]?

/-- Grapheme length of row `y`, 0 when absent (the
`if let Some(row) ... row.len() else 0` idiom of `editor.rs`). -/
def rowLen (d : Document) (y : Nat) : Nat :=
  match d.row y with
  | some r => r.len
  | none => 0

/-- The buffer content: each line's grapheme sequence, in order. -/
def content (d : Document) : List (List Grapheme) :=
  d.rows.map Row.chars

/-- The rows from index `start` onward with their highlight cache flag
cleared, others untouched: the loop body of `Document::unhighlight_rows`
(`self.rows.iter_mut().skip(start)`). -/
def unhlFrom : Nat → List Row → List Row
  | _, [] => []
  | 0, r :: rs => { r with is_highlighted := false } :: unhlFrom 0 rs
  | s + 1, r :: rs => r :: unhlFrom s rs

/-- `Document::unhighlight_rows`: `start` is first lowered by a saturating 1
(`Nat` subtraction saturates), then every row from `start` on is marked
highlight-stale. -/
def unhighlight_rows (d : Document) (start : Nat) : Document :=
  { d with rows := unhlFrom (start - 1) d.rows }

/-- `Document::insert_newline`. -/
def insert_newline (d : Document) (at_ : Position) : Document :=
  if at_.y > d.rows.length then d
  else if at_.y = d.rows.length then { d with rows := d.rows ++ [Row.default] }
  else
    let current_row := d.rows.getD at_.y Row.default
    let (cur, new_row) := current_row.split at_.x
    { d with dirty := true,
             rows := d.rows.take at_.y ++ cur :: new_row :: d.rows.drop (at_.y + 1) }

/-- `Document::insert`. -/
def insert (d : Document) (at_ : Position) (c : Grapheme) : Document :=
  if at_.y > d.rows.length then d
  else
    let d := { d with dirty := true }
    let d :=
      if c = '\n' then d.insert_newline at_
      else if at_.y = d.rows.length then
        { d with rows := d.rows ++ [Row.default.insert 0 c] }
      else
        { d with rows := d.rows.take at_.y ++
            (d.rows.getD at_.y Row.default).insert at_.x c :: d.rows.drop (at_.y + 1) }
    d.unhighlight_rows at_.y

/-- `Document::insert_line`: `splice(y..y, vec![line.into()])`. -/
def insert_line (d : Document) (y : Nat) (line : String) : Document :=
  if y > d.rows.length then d
  else
    ({ d with dirty := true,
              rows := d.rows.take y ++ Row.from_ line :: d.rows.drop y }).unhighlight_rows y

/-- `Document::delete`, returning the updated buffer and the removed-grapheme
count. -/
def delete (d : Document) (at_ : Position) : Document × Nat :=
  let len := d.rows.length
  if at_.y ≥ len then (d, 0)
  else
    let d := { d with dirty := true }
    let row := d.rows.getD at_.y Row.default
    if at_.x = row.len ∧ at_.y + 1 < len then
      let next_row := d.rows.getD (at_.y + 1) Row.default
      let d := { d with rows := d.rows.take at_.y ++
                   row.append next_row :: d.rows.drop (at_.y + 2) }
      (d.unhighlight_rows at_.y, 0)
    else
      let (row', deleted) := row.delete at_.x
      let d := { d with rows := d.rows.take at_.y ++ row' :: d.rows.drop (at_.y + 1) }
      (d.unhighlight_rows at_.y, deleted)

/-- `Document::delete_line`.  The guard only rejects `y > len`; the remaining
call `self.rows.splice(y..=y, vec![])` panics in Rust when `y = len`
(`Vec::splice`: "the end point is greater than the length of the vector"),
which the model renders as `none`. -/
def delete_line (d : Document) (y : Nat) : Option Document :=
  if y > d.rows.length then some d
  else if y = d.rows.length then none
  else
    some (({ d with dirty := true,
                    rows := d.rows.take y ++ d.rows.drop (y + 1) }).unhighlight_rows y)

/-- `Document::replace`: delete then insert at the same position. -/
def replace (d : Document) (at_ : Position) (c : Grapheme) : Document :=
  ((d.delete at_).1).insert at_ c

end Document

/-- The I/O environment of `Document::save`: whether the target path already
exists (`Path::new(file_name).exists()`), and which I/O operation — counted
in program order: `File::create`, then two `write_all`s per row, then the
`rename`/`rename`/`remove_file` dance — is the first to return an error
(`none`: every operation succeeds). -/
structure SaveWorld where
  fileExists : Bool
  failAt : Option Nat
deriving DecidableEq, Repr

instance : DecidableEq (Except Unit Nat) := fun a b =>
  match a, b with
  | Except.ok n, Except.ok m =>
    if h : n = m then isTrue (by rw [h]) else isFalse (by intro hh; cases hh; omega)
  | Except.error _, Except.error _ => isTrue (by rfl)
  | Except.ok _, Except.error _ => isFalse (by intro hh; cases hh)
  | Except.error _, Except.ok _ => isFalse (by intro hh; cases hh)

namespace Document

/-- The row-writing loop of `Document::save`, starting at I/O-operation
index `k`: each row costs one `write_all` for its bytes and one for `"\n"`,
after which `row.save()` resets its diff marker; a failing write stops the
loop (Rust `?`), leaving the rows already written with their markers reset.
Returns the updated rows, the next operation index, the bytes written and
whether all writes succeeded. -/
def saveRows (w : SaveWorld) : Nat → List Row → List Row × Nat × Nat × Bool
  | k, [] => ([], k, 0, true)
  | k, r :: rs =>
    if w.failAt = some k ∨ w.failAt = some (k + 1) then (r :: rs, k, 0, false)
    else
      let (rs', k', b, ok) := saveRows w (k + 2) rs
      (r.save :: rs', k', r.len + 1 + b, ok)

/-- `Document::save`, with the file system abstracted by a `SaveWorld`.
Returns the final buffer (mutations made before a failing `?` persist, since
the Rust method works on `&mut self`) and either `Ok bytes_written` or an
error. -/
def save (w : SaveWorld) (d : Document) : Document × Except Unit Nat :=
  match d.file_name with
  | none => (d, Except.ok 0)
  | some file_name =>
    if w.failAt = some 0 then (d, Except.error ()) else
    let d := { d with file_type := FileType.from_ file_name }
    let res := saveRows w 1 d.rows
    let rows' := res.1
    let k := res.2.1
    let bytes_written := res.2.2.1
    let ok := res.2.2.2
    let d := { d with rows := rows' }
    if ok = false then (d, Except.error ())
    else if w.fileExists ∧
        (w.failAt = some k ∨ w.failAt = some (k + 1) ∨ w.failAt = some (k + 2)) then
      (d, Except.error ())
    else ({ d with dirty := false }, Except.ok bytes_written)

/-- One run of the `for _ in start..end` loop of `Document::find`,
parameterized by the per-line search `rf` (`Row::find` is not among the
provided sources); `fuel` is the iteration count `end - start`, fixed before
the loop starts. -/
def findLoop (rf : Row → String → Nat → SearchDirection → Option Nat)
    (rows : List Row) (query : String) (direction : SearchDirection) :
    Nat → Position → Option Position
  | 0, _ => none
  | fuel + 1, position =>
    match rows[position.y]? with
    | some r =>
      match rf r query position.x direction with
      | some x => some ⟨x, position.y⟩
      | none =>
        if direction = SearchDirection.forward then
          findLoop rf rows query direction fuel ⟨0, position.y + 1⟩
        else
          findLoop rf rows query direction fuel
            ⟨(rows.getD (position.y - 1) Row.default).len, position.y - 1⟩
    | none => none

/-- `Document::find`, parameterized by the per-line search `rf`. -/
def find (rf : Row → String → Nat → SearchDirection → Option Nat)
    (d : Document) (query : String) (at_ : Position)
    (direction : SearchDirection) : Option Position :=
  if at_.y ≥ d.rows.length then none
  else
    let start := if direction = SearchDirection.forward then at_.y else 0
    let stop := if direction = SearchDirection.forward then d.rows.length else at_.y + 1
    findLoop rf d.rows query direction (stop - start) ⟨at_.x, at_.y⟩

/-- The `for row in &mut self.rows[..until]` loop of `Document::highlight`,
parameterized by the per-line highlighter `hl` (`Row::highlight` is not
among the provided sources): runs `hl` left to right, threading the
inside-multi-line-comment boolean (`start_with_comment`) through each
highlighted line's output state. -/
def hlThread (hl : Row → Option String → Bool → Row × Bool)
    (word : Option String) : Bool → List Row → List Row × Bool
  | b, [] => ([], b)
  | b, r :: rs =>
    let (r', b') := hl r word b
    let (rs', b'') := hlThread hl word b' rs
    (r' :: rs', b'')

/-- `Document::highlight`, parameterized by the per-line highlighter `hl`.
The effective bound is `until.saturating_add(1)` when that is below the row
count, else the row count, and exactly `rows[..bound]` are re-highlighted,
threading the comment state from `false`. -/
def highlight (hl : Row → Option String → Bool → Row × Bool)
    (d : Document) (word : Option String) (until_ : Option Nat) : Document :=
  let bound := match until_ with
    | some u => if u + 1 < d.rows.length then u + 1 else d.rows.length
    | none => d.rows.length
  { d with rows := (hlThread hl word false (d.rows.take bound)).1 ++ d.rows.drop bound }

end Document

/-- An undo/redo snapshot, from `editor.rs` (`struct Version`).  The
wall-clock `timestamp` field only feeds status messages and stays outside
the model. -/
structure Version where
  document : Document
  position : CursorPosition
deriving DecidableEq, Repr

/-- `Version::default()`. -/
def Version.default : Version := ⟨Document.default, ⟨0, 0, 0⟩⟩

/-- The editor state, from `editor.rs` (`struct Editor`), restricted to the
fields the modelled operations read or write; the quit flag, status message,
selection anchor, viewport offset, clipboard and search query feed only
rendering or other commands and stay outside the model.  The terminal is
represented by the height `Editor::move_cursor` reads. -/
structure Editor where
  mode : Mode
  cursor_position : CursorPosition
  document : Document
  versions : List Version
  version_index : Nat
  has_saved : Bool
  terminal_height : Nat
deriving DecidableEq, Repr

namespace Editor

/-- The maximum resting column of `Editor::move_cursor` and
`Editor::readjust_cursor`: the line's grapheme length, lowered by a
saturating 1 in Normal mode (`width.saturating_sub(1)`). -/
def restWidth (d : Document) (mode : Mode) (y : Nat) : Nat :=
  if mode = Mode.normal then d.rowLen y - 1 else d.rowLen y

/-- The clamping step of `Editor::readjust_cursor` on a cursor position:
`y` is capped at the line count, `x` at the line's length minus one (0 on a
missing line), and the sticky column follows `x`. -/
def readjustPos (d : Document) (p : CursorPosition) : CursorPosition :=
  let y := if p.y > d.len then d.len else p.y
  let x := match d.row y with
    | some r =>
      let row_len := r.len - 1
      if p.x > row_len then row_len else p.x
    | none => 0
  ⟨x, y, x⟩

/-- `Editor::readjust_cursor`. -/
def readjust_cursor (e : Editor) : Editor :=
  { e with cursor_position := readjustPos e.document e.cursor_position }

/-- The `match key` block of `Editor::move_cursor`: the provisional
`(x, y, max_x)` before the final re-clamp. -/
def move_cursor_step (e : Editor) (key : MKey) : Nat × Nat × Nat :=
  let x := e.cursor_position.x
  let y := e.cursor_position.y
  let max_x := e.cursor_position.max_x
  let height := e.document.len
  let width := restWidth e.document e.mode y
  match key with
  | MKey.up => (x, y - 1, max_x)
  | MKey.down => (x, if y < height then y + 1 else y, max_x)
  | MKey.left =>
    if x > 0 then (x - 1, y, x - 1)
    else if e.mode ≠ Mode.normal ∧ y > 0 then
      let y' := y - 1
      let x' := e.document.rowLen y'
      (x', y', x')
    else (x, y, x)
  | MKey.right =>
    if x < width then (x + 1, y, x + 1)
    else if e.mode ≠ Mode.normal ∧ y < height then (0, y + 1, 0)
    else (x, y, x)
  | MKey.pageUp =>
    (x, if y > e.terminal_height then y - e.terminal_height else 0, max_x)
  | MKey.pageDown =>
    (x, if y + e.terminal_height < height then y + e.terminal_height else height, max_x)
  | MKey.home => (0, y, 0)
  | MKey.endKey => (width, y, width)
  | MKey.other => (x, y, max_x)

/-- `Editor::move_cursor`: the key-dependent step, then the final clamp of
`x = max_x` against the destination line's width. -/
def move_cursor (e : Editor) (key : MKey) : Editor :=
  let (_, y, max_x) := move_cursor_step e key
  let width := restWidth e.document e.mode y
  let x := max_x
  let x := if x > width then width else x
  { e with cursor_position := ⟨x, y, max_x⟩ }

/-- `Editor::save_prev_cursor_position` (the timestamp refresh stays outside
the model). -/
def save_prev_cursor_position (e : Editor) : Editor :=
  let prev_version := e.versions.getD e.version_index Version.default
  { e with versions :=
      e.versions.set e.version_index { prev_version with position := e.cursor_position } }

/-- `Editor::add_version`: truncate the redo branch when not at the newest
version, then snapshot the current document with the checkpointed cursor. -/
def add_version (e : Editor) : Editor :=
  let versions :=
    if e.version_index ≠ e.versions.length - 1 then e.versions.take (e.version_index + 1)
    else e.versions
  let prev := versions.getD e.version_index Version.default
  let version : Version := ⟨e.document.clone, prev.position⟩
  let versions := versions ++ [version]
  { e with document := e.document.clone, versions := versions,
           version_index := versions.length - 1, has_saved := false }

/-- `Editor::undo` (status message and screen refresh omitted: they only
feed the display). -/
def undo (e : Editor) : Editor :=
  if e.version_index = 0 then e
  else
    let i := e.version_index - 1
    let version := e.versions.getD i Version.default
    ({ e with version_index := i,
              document := version.document.clone,
              cursor_position := version.position }).readjust_cursor

/-- `Editor::redo` (status message and screen refresh omitted).  Note that
the restored cursor is read from the version at the index *before* the
increment. -/
def redo (e : Editor) : Editor :=
  if e.version_index = e.versions.length - 1 then e
  else
    let position := (e.versions.getD e.version_index Version.default).position
    let i := e.version_index + 1
    let version := e.versions.getD i Version.default
    ({ e with version_index := i,
              document := version.document.clone,
              cursor_position := position }).readjust_cursor

/-- `Editor::doc_edit`, with the buffer mutation abstracted as a function on
the document: the callbacks of `doc_insert`, `doc_insert_line`,
`doc_delete`, `doc_delete_line`, `doc_replace` and `doc_paste_clipboard`
all mutate `self.document` at the current cursor and leave the cursor
itself untouched. -/
def doc_edit (e : Editor) (f : Document → Document) : Editor :=
  let e1 := if e.mode ≠ Mode.insert then e.save_prev_cursor_position else e
  let e2 := { e1 with document := f e1.document }
  if e.mode ≠ Mode.insert then e2.add_version else e2

/-- The version-stack well-formedness invariant: the versions list is never
empty and `version_index` is a valid index into it. -/
def versionsWF (e : Editor) : Prop :=
  0 < e.versions.length ∧ e.version_index < e.versions.length

instance (e : Editor) : Decidable (versionsWF e) :=
  inferInstanceAs (Decidable (0 < e.versions.length ∧ e.version_index < e.versions.length))

/-- The version-list initialization of `Editor::default` when no file is
opened (or opening fails): a single `Version::default()`, paired with
`version_index = 0`. -/
def initialVersions : List Version × Nat := ([Version.default], 0)

/-- `Editor::open_document`, successful branch: a single snapshot of the
opened document; both call sites (`Editor::default` and the `:e` command)
pair the returned list with `version_index = 0`. -/
def open_document (doc : Document) : List Version × Nat :=
  ([⟨doc.clone, ⟨0, 0, 0⟩⟩], 0)

end Editor

/-!  Specification-side definitions, compared against the embedded code. -/

namespace Document

/-- Return the first per-line hit along a list of visit positions: at each
visit, run the per-line search on that line from the visit's column and stop
at the first success. -/
def firstHit (rf : Row → String → Nat → SearchDirection → Option Nat)
    (rows : List Row) (query : String) (direction : SearchDirection) :
    List Position → Option Position
  | [] => none
  | p :: ps =>
    match rf (rows.getD p.y Row.default) query p.x direction with
    | some x => some ⟨x, p.y⟩
    | none => firstHit rf rows query direction ps

/-- The visit order the specification states for `Document::find`: the start
line from `pos.x`, then — forward — each subsequent line from column 0 up to
the last line, or — backward — each prior line from its last column down to
line 0, never wrapping around the buffer boundary. -/
def findSpec (rf : Row → String → Nat → SearchDirection → Option Nat)
    (d : Document) (query : String) (at_ : Position)
    (direction : SearchDirection) : Option Position :=
  firstHit rf d.rows query direction
    (⟨at_.x, at_.y⟩ ::
      match direction with
      | SearchDirection.forward =>
        (List.range (d.rows.length - (at_.y + 1))).map (fun k => ⟨0, at_.y + 1 + k⟩)
      | SearchDirection.backward =>
        (List.range at_.y).map (fun k => ⟨d.rowLen (at_.y - 1 - k), at_.y - 1 - k⟩))

/-- The highlight-cache frame property of the spec: after an edit at row
`y`, every surviving row from index `y - 1` (saturating) on is marked
highlight-stale, and the flag of every row before `y - 1` is unchanged. -/
def hlFrame (d d' : Document) (y : Nat) : Prop :=
  (∀ i, y - 1 ≤ i → ∀ r, d'.rows[i]? = some r → r.is_highlighted = false) ∧
  (∀ i, i < y - 1 →
    d'.rows[i]?.map Row.is_highlighted = d.rows[i]?.map Row.is_highlighted)

end Document

/-- Modelled from the spec (§4.1 `find`): case-sensitive substring search
within one line, starting at `from_x`, scanning forward or backward one
grapheme at a time.  Used to instantiate the per-line search of the
document-level theorems on concrete inputs. -/
def Row.findModel (r : Row) (query : String) (from_x : Nat)
    (direction : SearchDirection) : Option Nat :=
  let hit := fun i => decide ((r.chars.drop i).take query.data.length = query.data)
  match direction with
  | SearchDirection.forward =>
    (List.range (r.len + 1)).find? (fun i => from_x ≤ i && hit i)
  | SearchDirection.backward =>
    ((List.range (r.len + 1)).reverse).find? (fun i => i ≤ from_x && hit i)

/-- Modelled from the spec (§4.3, §2): an observable stand-in for the
missing `Row::highlight` — re-running the highlighter on a line marks its
cache valid (`is_highlighted = true`) and passes the carried comment state
through.  Used to instantiate the per-line highlighter on concrete inputs. -/
def hlMark : Row → Option String → Bool → Row × Bool :=
  fun r _ b => ({ r with is_highlighted := true }, b)

/-!  Concrete values used by witnesses and counterexamples. -/

/-- A one-row buffer. -/
def oneRowDoc : Document := ⟨[Row.from_ "ab"], none, false, "No filetype"⟩

/-- A two-row buffer. -/
def twoRowsDoc : Document := ⟨[Row.from_ "ab", Row.from_ "cd"], none, false, "No filetype"⟩

/-- A three-row buffer. -/
def threeRowsDoc : Document :=
  ⟨[Row.from_ "ab", Row.from_ "cd", Row.from_ "ef"], none, false, "No filetype"⟩

/-- A buffer whose single row carries a set per-line dirty diff marker. -/
def dirtyRowDoc : Document := ⟨[⟨['a', 'b'], false, true⟩], some "f.rs", true, "Rust"⟩

/-- A save environment in which the target file exists and the first
`rename` (I/O operation 3, after create and the two row writes) fails. -/
def renameFailWorld : SaveWorld := ⟨true, some 3⟩

/-- An editor in Replace mode over a one-row buffer. -/
def replaceModeEditor : Editor :=
  ⟨Mode.replace, ⟨0, 0, 0⟩, oneRowDoc, [Version.default], 0, false, 10⟩

/-- A freshly opened editor in Normal mode over a one-row buffer, its single
version synchronized with the document. -/
def normalModeEditor : Editor :=
  ⟨Mode.normal, ⟨0, 0, 0⟩, oneRowDoc.clone,
    (Editor.open_document oneRowDoc).1, (Editor.open_document oneRowDoc).2, false, 10⟩

/-!  ## Helper lemmas -/

namespace Document

theorem unhlFrom_length (s : Nat) (rs : List Row) : (unhlFrom s rs).length = rs.length := by
  induction rs generalizing s with
  | nil => simp [unhlFrom]
  | cons r rs ih => cases s <;> simp [unhlFrom, ih]

theorem unhlFrom_getElem?_lt {s i : Nat} (rs : List Row) (h : i < s) :
    (unhlFrom s rs)[i]? = rs[i]? := by
  induction rs generalizing s i with
  | nil => simp [unhlFrom]
  | cons r rs ih =>
    cases s with
    | zero => omega
    | succ s =>
      cases i with
      | zero => simp [unhlFrom]
      | succ i => simpa [unhlFrom] using ih (by omega)

theorem unhlFrom_getElem?_ge {s i : Nat} (rs : List Row) (h : s ≤ i) :
    (unhlFrom s rs)[i]? = rs[i]?.map (fun r => { r with is_highlighted := false }) := by
  induction rs generalizing s i with
  | nil => simp [unhlFrom]
  | cons r rs ih =>
    cases s with
    | zero =>
      cases i with
      | zero => simp [unhlFrom]
      | succ i => simpa [unhlFrom] using ih (Nat.zero_le _)
    | succ s =>
      cases i with
      | zero => omega
      | succ i => simpa [unhlFrom] using ih (by omega)

theorem unhlFrom_map_chars (s : Nat) (rs : List Row) :
    (unhlFrom s rs).map Row.chars = rs.map Row.chars := by
  induction rs generalizing s with
  | nil => simp [unhlFrom]
  | cons r rs ih => cases s <;> simp [unhlFrom, ih]

theorem content_unhighlight_rows (d : Document) (s : Nat) :
    (d.unhighlight_rows s).content = d.content := by
  simp [unhighlight_rows, content, unhlFrom_map_chars]

theorem len_unhighlight_rows (d : Document) (s : Nat) :
    (d.unhighlight_rows s).len = d.len := by
  simp [unhighlight_rows, len, unhlFrom_length]

theorem content_getD (d : Document) {y : Nat} (h : y < d.len) :
    d.content.getD y [] = (d.rows.getD y Row.default).chars := by
  have h' : y < d.rows.length := h
  simp [content, List.getD_eq_getElem?_getD, List.getElem?_map,
    List.getElem?_eq_getElem h']

theorem hlThread_length (hl : Row → Option String → Bool → Row × Bool)
    (word : Option String) (b : Bool) (rs : List Row) :
    ((hlThread hl word b rs).1).length = rs.length := by
  induction rs generalizing b with
  | nil => rfl
  | cons r rs ih =>
    cases h : hl r word b with
    | mk r' b' => simp [hlThread, h, ih]

end Document

/-!  ## Theorems for the claims -/

/-- C3: out-of-range edits are silent no-ops, except that `delete_line` at
`y = len` escapes the guard (`y > len`) and reaches
`rows.splice(y..=y, vec![])`, which panics in Rust (range end past the
vector length) — here evaluated at the failing input, `none` = panic —
where the spec promises "never fatal / silent no-op". -/
theorem c3_delete_line_panics_at_len :
    oneRowDoc.delete_line 1 = none ∧
    oneRowDoc.delete_line 2 = some oneRowDoc ∧
    oneRowDoc.insert ⟨0, 2⟩ 'x' = oneRowDoc ∧
    oneRowDoc.insert ⟨0, 2⟩ '\n' = oneRowDoc ∧
    oneRowDoc.insert_line 2 "zz" = oneRowDoc ∧
    oneRowDoc.delete ⟨0, 1⟩ = (oneRowDoc, 0) := by decide

/-- C4 (counterexample): in Replace mode, pressing `End` on the line `"ab"`
leaves the cursor resting at column 2, the line's full length — the claimed
Normal/Replace bound `length - 1` is violated because only Normal mode
subtracts one from the resting width. -/
theorem c4_replace_mode_counterexample :
    replaceModeEditor.mode = Mode.replace ∧
    replaceModeEditor.document.rowLen 0 = 2 ∧
    (replaceModeEditor.move_cursor MKey.endKey).cursor_position.y = 0 ∧
    (replaceModeEditor.move_cursor MKey.endKey).cursor_position.x = 2 ∧
    ¬((replaceModeEditor.move_cursor MKey.endKey).cursor_position.x ≤
        replaceModeEditor.document.rowLen 0 - 1) := by decide

/-- C4 (amended): after every `move_cursor` call the resting column is
bounded by the destination line's grapheme length, lowered by one in Normal
mode only; Insert, Replace and Visual modes may rest at the line's length
(the append position) but never beyond. -/
theorem c4_move_cursor_clamp (e : Editor) (key : MKey) :
    (e.move_cursor key).cursor_position.x ≤
      Editor.restWidth e.document e.mode (e.move_cursor key).cursor_position.y := by
  rcases h : e.move_cursor_step key with ⟨a, y, mx⟩
  simp only [Editor.move_cursor, h]
  split <;> omega

/-- C5 (counterexample): with `until = some 1` on a three-line buffer,
`highlight` re-runs the per-line highlighter on line index 1 as well — the
claimed half-open range `[0, 1)` would leave that line untouched. -/
theorem c5_until_counterexample :
    (threeRowsDoc.highlight hlMark none (some 1)).rows[1]? ≠ threeRowsDoc.rows[1]? := by
  decide

/-- C5 (amended): `highlight` with `until = some u` re-runs the per-line
highlighter — threading the inside-multi-line-comment boolean sequentially
from `false` — over exactly the lines `[0, min(u+1, len))`, one more than
the claimed `[0, min(u, len))`, and leaves every line from index
`min(u+1, len)` on untouched. -/
theorem c5_highlight_bound (hl : Row → Option String → Bool → Row × Bool)
    (word : Option String) (u : Nat) (d : Document) :
    (d.highlight hl word (some u)).rows =
      (Document.hlThread hl word false (d.rows.take (min (u + 1) d.len))).1 ++
        d.rows.drop (min (u + 1) d.len) ∧
    ∀ i, min (u + 1) d.len ≤ i →
      (d.highlight hl word (some u)).rows[i]? = d.rows[i]? := by
  have hbound : (if u + 1 < d.rows.length then u + 1 else d.rows.length) =
      min (u + 1) d.len := by
    simp only [Document.len, Nat.min_def]
    split <;> split <;> omega
  refine ⟨by simp [Document.highlight, hbound], ?_⟩
  intro i hi
  have hlen : ((Document.hlThread hl word false
      (d.rows.take (min (u + 1) d.len))).1).length = min (u + 1) d.len := by
    rw [Document.hlThread_length, List.length_take]
    simp only [Document.len]
    omega
  simp only [Document.highlight, hbound]
  rw [List.getElem?_append_right (by omega), hlen, List.getElem?_drop]
  congr 1
  omega

/-- C6 (counterexample): `replace` at the end-of-line position `(2, 0)` of a
two-line buffer first merges line 1 into line 0 (the `delete` half) and then
inserts, so the line count drops from 2 to 1 — not the claimed unchanged
line count and single-grapheme substitution. -/
theorem c6_replace_merge_counterexample :
    twoRowsDoc.len = 2 ∧ twoRowsDoc.rowLen 0 = 2 ∧
    (twoRowsDoc.replace ⟨2, 0⟩ 'X').len = 1 := by decide

namespace Document

theorem rowLen_eq_getD (d : Document) {y : Nat} (h : y < d.len) :
    d.rowLen y = (d.rows.getD y Row.default).len := by
  have h' : y < d.rows.length := h
  simp [rowLen, row, List.getD_eq_getElem?_getD, List.getElem?_eq_getElem h']

end Document

namespace Document

theorem map_chars_getD (rs : List Row) {y : Nat} (h : y < rs.length) :
    (rs.map Row.chars).getD y [] = (rs.getD y Row.default).chars := by
  simp [List.getD_eq_getElem?_getD, List.getElem?_map, List.getElem?_eq_getElem h]

theorem length_rows_unhighlight_rows (d : Document) (s : Nat) :
    (d.unhighlight_rows s).rows.length = d.rows.length := by
  simp [unhighlight_rows, unhlFrom_length]

theorem map_chars_unhighlight_rows (d : Document) (s : Nat) :
    ((d.unhighlight_rows s).rows).map Row.chars = d.rows.map Row.chars := by
  simp [unhighlight_rows, unhlFrom_map_chars]

theorem insert_newline_eq_lt (d : Document) (x y : Nat) (hlt : y < d.rows.length) :
    d.insert ⟨x, y⟩ '\n' =
      ({ d with dirty := true, rows :=
          d.rows.take y ++
            { d.rows.getD y Row.default with
                chars := (d.rows.getD y Row.default).chars.take x,
                is_highlighted := false, dirty := true } ::
            (⟨(d.rows.getD y Row.default).chars.drop x, false, true⟩ : Row) ::
            d.rows.drop (y + 1) } : Document).unhighlight_rows y := by
  unfold insert insert_newline
  dsimp only
  rw [if_neg (by omega : ¬ y > d.rows.length), if_pos rfl,
    if_neg (by omega : ¬ y > d.rows.length), if_neg (by omega : ¬ y = d.rows.length)]
  rfl

theorem insert_newline_eq_append (d : Document) (x y : Nat) (heq : y = d.rows.length) :
    d.insert ⟨x, y⟩ '\n' =
      ({ d with dirty := true, rows := d.rows ++ [Row.default] } : Document).unhighlight_rows y := by
  unfold insert insert_newline
  dsimp only
  rw [if_neg (by omega : ¬ y > d.rows.length), if_pos rfl,
    if_neg (by omega : ¬ y > d.rows.length), if_pos heq]

theorem delete_eq_merge (d : Document) (y : Nat) (hy : y < d.rows.length)
    (hy1 : y + 1 < d.rows.length) :
    d.delete ⟨d.rowLen y, y⟩ =
      (({ d with dirty := true, rows :=
          d.rows.take y ++
            { d.rows.getD y Row.default with
                chars := (d.rows.getD y Row.default).chars ++
                  (d.rows.getD (y + 1) Row.default).chars,
                dirty := true } ::
            d.rows.drop (y + 2) } : Document).unhighlight_rows y, 0) := by
  have hx : d.rowLen y = (d.rows.getD y Row.default).len := d.rowLen_eq_getD hy
  unfold delete
  dsimp only
  rw [if_neg (by omega : ¬ y ≥ d.rows.length), if_pos ⟨hx, hy1⟩]
  rfl

end Document

/-- C1: inserting `'\n'` at `(x, y)` with `y ≤ len` grows the line count by
exactly one — splitting line `y`'s graphemes at `x` when `y` is a valid row
index, appending an empty line when `y = len` — and deleting at
`(length(line y), y)` when line `y + 1` exists shrinks the line count by
exactly one, concatenates line `y + 1` onto line `y`, and returns 0. -/
theorem c1_newline_split_and_merge :
    (∀ (d : Document) (x y : Nat), y ≤ d.len →
      (d.insert ⟨x, y⟩ '\n').len = d.len + 1 ∧
      (y < d.len → (d.insert ⟨x, y⟩ '\n').content =
        d.content.take y ++ (d.content.getD y []).take x ::
          (d.content.getD y []).drop x :: d.content.drop (y + 1)) ∧
      (y = d.len → (d.insert ⟨x, y⟩ '\n').content = d.content ++ [[]])) ∧
    (∀ (d : Document) (y : Nat), y < d.len → y + 1 < d.len →
      (d.delete ⟨d.rowLen y, y⟩).2 = 0 ∧
      (d.delete ⟨d.rowLen y, y⟩).1.len = d.len - 1 ∧
      (d.delete ⟨d.rowLen y, y⟩).1.content =
        d.content.take y ++
          (d.content.getD y [] ++ d.content.getD (y + 1) []) ::
            d.content.drop (y + 2)) := by
  constructor
  · intro d x y hy
    rcases Nat.lt_or_ge y d.len with hlt | hge
    · have hlt' : y < d.rows.length := hlt
      rw [Document.insert_newline_eq_lt d x y hlt']
      refine ⟨?_, fun _ => ?_, fun h => by simp only [Document.len] at h; omega⟩
      · simp only [Document.len, Document.length_rows_unhighlight_rows,
          List.length_append, List.length_cons, List.length_take, List.length_drop]
        omega
      · simp only [Document.content, Document.map_chars_unhighlight_rows,
          List.map_append, List.map_take, List.map_drop, List.map_cons,
          Document.map_chars_getD d.rows hlt']
    · have heq : y = d.rows.length := by
        simp only [Document.len] at hy hge; omega
      rw [Document.insert_newline_eq_append d x y heq]
      refine ⟨?_, fun h => by simp only [Document.len] at h hge; omega, fun _ => ?_⟩
      · simp only [Document.len, Document.length_rows_unhighlight_rows,
          List.length_append, List.length_cons, List.length_nil]
      · simp only [Document.content, Document.map_chars_unhighlight_rows,
          List.map_append, List.map_cons, List.map_nil]
        rfl
  · intro d y hy hy1
    have hy' : y < d.rows.length := hy
    have hy1' : y + 1 < d.rows.length := hy1
    rw [Document.delete_eq_merge d y hy' hy1']
    refine ⟨rfl, ?_, ?_⟩
    · simp only [Document.len, Document.length_rows_unhighlight_rows,
        List.length_append, List.length_cons, List.length_take, List.length_drop]
      omega
    · simp only [Document.content, Document.map_chars_unhighlight_rows,
        List.map_append, List.map_take, List.map_drop, List.map_cons,
        Document.map_chars_getD d.rows hy', Document.map_chars_getD d.rows hy1']

/-- C1 witness: both halves applied on a concrete two-line buffer. -/
theorem c1_witness :
    ((0 : Nat) ≤ twoRowsDoc.len ∧
      (twoRowsDoc.insert ⟨1, 0⟩ '\n').len = twoRowsDoc.len + 1) ∧
    (0 < twoRowsDoc.len ∧ 0 + 1 < twoRowsDoc.len ∧
      (twoRowsDoc.delete ⟨twoRowsDoc.rowLen 0, 0⟩).2 = 0) :=
  ⟨⟨by decide, (c1_newline_split_and_merge.1 twoRowsDoc 1 0 (by decide)).1⟩,
   ⟨by decide, by decide,
     (c1_newline_split_and_merge.2 twoRowsDoc 0 (by decide) (by decide)).1⟩⟩

namespace Document

theorem insert_char_eq_lt (d : Document) (x y : Nat) (c : Grapheme)
    (hc : ¬ c = '\n') (hy : y < d.rows.length) :
    d.insert ⟨x, y⟩ c =
      ({ d with dirty := true, rows :=
          d.rows.take y ++ (d.rows.getD y Row.default).insert x c ::
            d.rows.drop (y + 1) } : Document).unhighlight_rows y := by
  unfold insert
  dsimp only
  rw [if_neg (by omega : ¬ y > d.rows.length), if_neg hc,
    if_neg (by omega : ¬ y = d.rows.length)]

theorem insert_char_eq_append (d : Document) (x : Nat) (c : Grapheme)
    (hc : ¬ c = '\n') :
    d.insert ⟨x, d.rows.length⟩ c =
      ({ d with dirty := true, rows :=
          d.rows ++ [Row.default.insert 0 c] } : Document).unhighlight_rows
        d.rows.length := by
  unfold insert
  dsimp only
  rw [if_neg (by omega : ¬ d.rows.length > d.rows.length), if_neg hc, if_pos rfl]

theorem insert_line_eq (d : Document) (y : Nat) (line : String)
    (hy : y ≤ d.rows.length) :
    d.insert_line y line =
      ({ d with dirty := true, rows :=
          d.rows.take y ++ Row.from_ line :: d.rows.drop y } : Document).unhighlight_rows
        y := by
  unfold insert_line
  rw [if_neg (by omega : ¬ y > d.rows.length)]

theorem delete_eq_nomerge (d : Document) (x y : Nat) (hy : y < d.rows.length)
    (hcond : ¬ (x = (d.rows.getD y Row.default).len ∧ y + 1 < d.rows.length)) :
    d.delete ⟨x, y⟩ =
      (({ d with dirty := true, rows :=
          d.rows.take y ++ ((d.rows.getD y Row.default).delete x).1 ::
            d.rows.drop (y + 1) } : Document).unhighlight_rows y,
       ((d.rows.getD y Row.default).delete x).2) := by
  unfold delete
  dsimp only
  rw [if_neg (by omega : ¬ y ≥ d.rows.length), if_neg hcond]

theorem delete_line_eq (d : Document) (y : Nat) (hy : y < d.rows.length) :
    d.delete_line y =
      some (({ d with dirty := true, rows :=
                 d.rows.take y ++ d.rows.drop (y + 1) } : Document).unhighlight_rows y) := by
  unfold delete_line
  rw [if_neg (by omega : ¬ y > d.rows.length), if_neg (by omega : ¬ y = d.rows.length)]

theorem row_delete_lt (r : Row) (x : Nat) (hx : x < r.len) :
    r.delete x =
      ({ r with chars := r.chars.take x ++ r.chars.drop (x + 1), dirty := true }, 1) := by
  unfold Row.delete
  rw [if_neg (by omega : ¬ x ≥ r.len)]

end Document


theorem splice_take {α : Type} (A : List α) (y : Nat) (mid : α) (z : List α)
    (hy : y ≤ A.length) :
    (A.take y ++ mid :: z).take y = A.take y := by
  rw [List.take_append_of_le_length (by simp only [List.length_take]; omega),
    List.take_take, Nat.min_self]

theorem splice_drop {α : Type} (A : List α) (y : Nat) (mid : α) (z : List α)
    (hy : y ≤ A.length) :
    (A.take y ++ mid :: z).drop (y + 1) = z := by
  have h : (A.take y).length = y := by simp only [List.length_take]; omega
  rw [show y + 1 = (A.take y).length + 1 by omega, List.drop_append]
  simp

theorem mid_subst (aa : List Grapheme) (x : Nat) (c : Grapheme) (hx : x < aa.length) :
    (aa.take x ++ aa.drop (x + 1)).take x ++ c :: (aa.take x ++ aa.drop (x + 1)).drop x =
      aa.set x c := by
  have htx : (aa.take x).length = x := by simp only [List.length_take]; omega
  rw [List.take_append_of_le_length (by omega), List.take_take, Nat.min_self,
    List.drop_left' htx, List.set_eq_take_cons_drop c hx]

/-- C6 (amended): `replace pos ch` is `delete` then `insert` at `pos`, and
when `pos` addresses an existing grapheme (`pos.y` a valid row index and
`pos.x` within that line) and `ch` is not the newline character, its net
effect is substitution of the single grapheme at `pos` by `ch`: the line
count and every other grapheme of the buffer are unchanged. -/
theorem c6_replace_substitutes (d : Document) (x y : Nat) (c : Grapheme)
    (hy : y < d.len) (hx : x < d.rowLen y) (hc : c ≠ '\n') :
    d.replace ⟨x, y⟩ c = ((d.delete ⟨x, y⟩).1).insert ⟨x, y⟩ c ∧
    (d.replace ⟨x, y⟩ c).len = d.len ∧
    (d.replace ⟨x, y⟩ c).content =
      d.content.take y ++ (d.content.getD y []).set x c :: d.content.drop (y + 1) := by
  have hy' : y < d.rows.length := hy
  have hx' : x < (d.rows.getD y Row.default).len := by
    rw [← d.rowLen_eq_getD hy']; exact hx
  have hdel := d.delete_eq_nomerge x y hy' (by rintro ⟨h1, -⟩; omega)
  rw [Document.row_delete_lt (d.rows.getD y Row.default) x hx'] at hdel
  have ha : (d.rows.getD y Row.default).chars = (List.map Row.chars d.rows).getD y [] :=
    (Document.map_chars_getD d.rows hy').symm
  have haalen : x < ((List.map Row.chars d.rows).getD y []).length := by
    rw [← ha]; exact hx'
  have hAlen : y < (List.map Row.chars d.rows).length := by
    simp only [List.length_map]; exact hy'
  refine ⟨rfl, ?_⟩
  have h1 : d.replace ⟨x, y⟩ c = ((d.delete ⟨x, y⟩).1).insert ⟨x, y⟩ c := rfl
  rw [h1, hdel]
  dsimp only
  set r1 : Row := { d.rows.getD y Row.default with
      chars := (d.rows.getD y Row.default).chars.take x ++
        (d.rows.getD y Row.default).chars.drop (x + 1), dirty := true } with hr1
  set M : Document :=
    ({ d with dirty := true, rows :=
        d.rows.take y ++ r1 :: d.rows.drop (y + 1) } : Document).unhighlight_rows y with hM
  have hMlen : M.rows.length = d.rows.length := by
    rw [hM]
    simp only [Document.length_rows_unhighlight_rows, List.length_append,
      List.length_cons, List.length_take, List.length_drop]
    omega
  have hMy : y < M.rows.length := by omega
  have hMgetD : (M.rows.getD y Row.default).chars =
      ((List.map Row.chars d.rows).getD y []).take x ++
        ((List.map Row.chars d.rows).getD y []).drop (x + 1) := by
    rw [hM]
    simp only [Document.unhighlight_rows, List.getD_eq_getElem?_getD]
    rw [Document.unhlFrom_getElem?_ge _ (by omega : y - 1 ≤ y),
      List.getElem?_append_right (by simp only [List.length_take]; omega)]
    have h0 : y - (List.take y d.rows).length = 0 := by
      simp only [List.length_take]; omega
    rw [h0]
    simp [hr1, List.getElem?_map, List.getElem?_eq_getElem hy']
  have hMmap : List.map Row.chars M.rows =
      (List.map Row.chars d.rows).take y ++
        (((List.map Row.chars d.rows).getD y []).take x ++
          ((List.map Row.chars d.rows).getD y []).drop (x + 1)) ::
          (List.map Row.chars d.rows).drop (y + 1) := by
    rw [hM]
    rw [Document.map_chars_unhighlight_rows
      ({ d with dirty := true, rows := d.rows.take y ++ r1 :: d.rows.drop (y + 1) } : Document) y]
    simp only [List.map_append, List.map_take, List.map_drop, List.map_cons, hr1, ha]
  rw [M.insert_char_eq_lt x y c hc hMy]
  constructor
  · simp only [Document.len, Document.length_rows_unhighlight_rows, List.length_append,
      List.length_cons, List.length_take, List.length_drop]
    omega
  · simp only [Document.content, Document.map_chars_unhighlight_rows, List.map_append,
      List.map_take, List.map_drop, List.map_cons, Row.insert, hMgetD, hMmap]
    rw [splice_take _ _ _ _ (by omega), splice_drop _ _ _ _ (by omega),
      mid_subst _ _ _ haalen]

/-- C6 witness: the amended substitution applied at a concrete in-range
position. -/
theorem c6_witness :
    (0 < twoRowsDoc.len ∧ 0 < twoRowsDoc.rowLen 0 ∧ ('X' : Char) ≠ '\n') ∧
    (twoRowsDoc.replace ⟨0, 0⟩ 'X').len = twoRowsDoc.len :=
  ⟨⟨by decide, by decide, by decide⟩,
   (c6_replace_substitutes twoRowsDoc 0 0 'X' (by decide) (by decide) (by decide)).2.1⟩

theorem getElem?_take_append_lt {α : Type} (A : List α) (y i : Nat) (rest : List α)
    (hiy : i < y) (hiA : i < A.length) :
    (A.take y ++ rest)[i]? = A[i]? := by
  rw [List.getElem?_append, if_pos (by simp only [List.length_take]; omega),
    List.getElem?_take, if_pos hiy]

theorem hlFrame_of_unhighlight (d X : Document) (y : Nat)
    (hpre : ∀ i, i < y - 1 → X.rows[i]? = d.rows[i]?) :
    Document.hlFrame d (X.unhighlight_rows y) y := by
  constructor
  · intro i hi r hr
    simp only [Document.unhighlight_rows] at hr
    rw [Document.unhlFrom_getElem?_ge X.rows hi] at hr
    rcases hX : X.rows[i]? with _ | r0
    · rw [hX] at hr; exact absurd hr (by simp)
    · rw [hX] at hr
      simp only [Option.map_some'] at hr
      cases hr
      rfl
  · intro i hi
    simp only [Document.unhighlight_rows]
    rw [Document.unhlFrom_getElem?_lt X.rows hi, hpre i hi]

/-- C9: each content-mutating buffer operation applied at an in-bounds row
index `y` clears the `is_highlighted` cache flag of every surviving row at
index `max(y-1, 0)` or beyond, and leaves the flag of every row at an index
strictly below `max(y-1, 0)` unchanged. -/
theorem c9_highlight_invalidation :
    (∀ (d : Document) (x y : Nat) (c : Grapheme), y ≤ d.len →
      Document.hlFrame d (d.insert ⟨x, y⟩ c) y) ∧
    (∀ (d : Document) (y : Nat) (line : String), y ≤ d.len →
      Document.hlFrame d (d.insert_line y line) y) ∧
    (∀ (d : Document) (x y : Nat), y < d.len →
      Document.hlFrame d (d.delete ⟨x, y⟩).1 y) ∧
    (∀ (d : Document) (y : Nat) (d' : Document), y < d.len →
      d.delete_line y = some d' → Document.hlFrame d d' y) := by
  refine ⟨?_, ?_, ?_, ?_⟩
  · -- insert
    intro d x y c hy
    by_cases hc : c = '\n'
    · subst hc
      rcases Nat.lt_or_ge y d.len with hlt | hge
      · rw [Document.insert_newline_eq_lt d x y hlt]
        exact hlFrame_of_unhighlight d _ y (fun i hi =>
          getElem?_take_append_lt d.rows y i _ (by omega) (by
            have : y ≤ d.rows.length := hy
            omega))
      · have heq : y = d.rows.length := by
          have h1 : y ≤ d.rows.length := hy
          have h2 : d.rows.length ≤ y := hge
          omega
        rw [Document.insert_newline_eq_append d x y heq]
        exact hlFrame_of_unhighlight d _ y (fun i hi => by
          rw [List.getElem?_append, if_pos (by omega)])
    · rcases Nat.lt_or_ge y d.len with hlt | hge
      · rw [Document.insert_char_eq_lt d x y c hc hlt]
        exact hlFrame_of_unhighlight d _ y (fun i hi =>
          getElem?_take_append_lt d.rows y i _ (by omega) (by
            have : y ≤ d.rows.length := hy
            omega))
      · have heq : y = d.rows.length := by
          have h1 : y ≤ d.rows.length := hy
          have h2 : d.rows.length ≤ y := hge
          omega
        subst heq
        rw [Document.insert_char_eq_append d x c hc]
        exact hlFrame_of_unhighlight d _ _ (fun i hi => by
          rw [List.getElem?_append, if_pos (by omega)])
  · -- insert_line
    intro d y line hy
    rw [Document.insert_line_eq d y line (by exact hy)]
    exact hlFrame_of_unhighlight d _ y (fun i hi =>
      getElem?_take_append_lt d.rows y i _ (by omega) (by
        have : y ≤ d.rows.length := hy
        omega))
  · -- delete
    intro d x y hy
    have hy' : y < d.rows.length := hy
    by_cases hcond : x = (d.rows.getD y Row.default).len ∧ y + 1 < d.rows.length
    · obtain ⟨h1, h2⟩ := hcond
      have hx : x = d.rowLen y := by rw [d.rowLen_eq_getD hy']; exact h1
      rw [hx, d.delete_eq_merge y hy' h2]
      exact hlFrame_of_unhighlight d _ y (fun i hi =>
        getElem?_take_append_lt d.rows y i _ (by omega) (by omega))
    · rw [d.delete_eq_nomerge x y hy' hcond]
      exact hlFrame_of_unhighlight d _ y (fun i hi =>
        getElem?_take_append_lt d.rows y i _ (by omega) (by omega))
  · -- delete_line
    intro d y d' hy hdel
    have hy' : y < d.rows.length := hy
    rw [d.delete_line_eq y hy'] at hdel
    cases hdel
    refine hlFrame_of_unhighlight d _ y (fun i hi => ?_)
    rw [List.getElem?_append, if_pos (by simp only [List.length_take]; omega),
      List.getElem?_take, if_pos (by omega)]

/-- C9 witness: the frame property applied on a concrete buffer for each of
the four operations. -/
theorem c9_witness :
    (1 ≤ threeRowsDoc.len ∧
      Document.hlFrame threeRowsDoc (threeRowsDoc.insert ⟨0, 1⟩ 'X') 1) ∧
    (1 ≤ threeRowsDoc.len ∧
      Document.hlFrame threeRowsDoc (threeRowsDoc.insert_line 1 "zz") 1) ∧
    (1 < threeRowsDoc.len ∧
      Document.hlFrame threeRowsDoc (threeRowsDoc.delete ⟨0, 1⟩).1 1) ∧
    (1 < threeRowsDoc.len ∧ ∀ d', threeRowsDoc.delete_line 1 = some d' →
      Document.hlFrame threeRowsDoc d' 1) :=
  ⟨⟨by decide, c9_highlight_invalidation.1 threeRowsDoc 0 1 'X' (by decide)⟩,
   ⟨by decide, c9_highlight_invalidation.2.1 threeRowsDoc 1 "zz" (by decide)⟩,
   ⟨by decide, c9_highlight_invalidation.2.2.1 threeRowsDoc 0 1 (by decide)⟩,
   ⟨by decide, fun d' h =>
     c9_highlight_invalidation.2.2.2 threeRowsDoc 1 d' (by decide) h⟩⟩


namespace Document

theorem saveRows_shape (w : SaveWorld) (k : Nat) (rs : List Row) :
    ∃ j, j ≤ rs.length ∧
      (saveRows w k rs).1 = (rs.take j).map Row.save ++ rs.drop j ∧
      ((saveRows w k rs).2.2.2 = true → (saveRows w k rs).1 = rs.map Row.save) := by
  induction rs generalizing k with
  | nil => exact ⟨0, by omega, by simp [saveRows], fun _ => by simp [saveRows]⟩
  | cons r rs ih =>
    by_cases hf : w.failAt = some k ∨ w.failAt = some (k + 1)
    · refine ⟨0, by omega, by simp [saveRows, hf], fun hok => ?_⟩
      simp [saveRows, hf] at hok
    · obtain ⟨j, hj, hshape, hok⟩ := ih (k + 2)
      rcases hrec : saveRows w (k + 2) rs with ⟨rs', k', b, ok⟩
      rw [hrec] at hshape hok
      dsimp only at hshape hok
      refine ⟨j + 1, by simp only [List.length_cons]; omega, ?_, fun h => ?_⟩
      · simp only [saveRows, if_neg hf, hrec, List.take_succ_cons, List.map_cons,
          List.drop_succ_cons]
        rw [hshape, List.cons_append]
      · simp only [saveRows, if_neg hf, hrec] at h ⊢
        rw [hok h]
        rfl

theorem save_eq_none (w : SaveWorld) (d : Document) (hfn : d.file_name = none) :
    d.save w = (d, Except.ok 0) := by
  unfold save
  rw [hfn]

theorem save_eq_fail0 (w : SaveWorld) (d : Document) (fname : String)
    (hfn : d.file_name = some fname) (h0 : w.failAt = some 0) :
    d.save w = (d, Except.error ()) := by
  unfold save
  rw [hfn]
  dsimp only
  rw [if_pos h0]

theorem save_eq_of_name (w : SaveWorld) (d : Document) (fname : String)
    (hfn : d.file_name = some fname) (h0 : ¬ w.failAt = some 0)
    (res : List Row × Nat × Nat × Bool) (hrec : saveRows w 1 d.rows = res) :
    d.save w =
      (if res.2.2.2 = false then
        ({ d with file_type := FileType.from_ fname, rows := res.1 }, Except.error ())
      else if w.fileExists ∧ (w.failAt = some res.2.1 ∨ w.failAt = some (res.2.1 + 1) ∨
          w.failAt = some (res.2.1 + 2)) then
        ({ d with file_type := FileType.from_ fname, rows := res.1 }, Except.error ())
      else
        ({ d with file_type := FileType.from_ fname, rows := res.1, dirty := false },
          Except.ok res.2.2.1)) := by
  unfold save
  rw [hfn]
  dsimp only
  rw [if_neg h0, hrec]

end Document

/-- C7 (counterexample): on a buffer whose single row carries a set diff
marker, a `save` in which the first `rename` fails (after the row's bytes
were written) returns an error while the buffer's dirty flag is still set —
but the row's per-line marker has already been reset by `row.save()` inside
the write loop, contradicting "each line's per-line dirty marker is as it
was before the call". -/
theorem c7_save_error_counterexample :
    (dirtyRowDoc.save renameFailWorld).2 = Except.error () ∧
    dirtyRowDoc.dirty = true ∧
    (dirtyRowDoc.save renameFailWorld).1.dirty = true ∧
    dirtyRowDoc.rows.map Row.dirty = [true] ∧
    (dirtyRowDoc.save renameFailWorld).1.rows.map Row.dirty = [false] := by decide

/-- C7 (amended): when `save` returns an I/O error the buffer-level dirty
flag is untouched, but the per-line markers are only guaranteed untouched
for the rows not yet fully written: the resulting rows are always a
marker-reset written front followed by the untouched remainder; on a
successful save of a named file the dirty flag is cleared and every
per-line marker reset. -/
theorem c7_save_markers (w : SaveWorld) (d : Document) :
    (∀ u, (d.save w).2 = Except.error u →
      (d.save w).1.dirty = d.dirty ∧
      ∃ k, (d.save w).1.rows = (d.rows.take k).map Row.save ++ d.rows.drop k) ∧
    (∀ n f, (d.save w).2 = Except.ok n → d.file_name = some f →
      (d.save w).1.dirty = false ∧ (d.save w).1.rows = d.rows.map Row.save) := by
  obtain ⟨j, hj, hshape, hok⟩ := Document.saveRows_shape w 1 d.rows
  rcases hrec : Document.saveRows w 1 d.rows with ⟨rows', k2, bytes, ok⟩
  rw [hrec] at hshape hok
  dsimp only at hshape hok
  rcases hfn : d.file_name with _ | fname
  · have hsave : d.save w = (d, Except.ok 0) := Document.save_eq_none w d hfn
    constructor
    · intro u herr
      rw [hsave] at herr
      exact Except.noConfusion herr
    · intro n f _ hf
      exact Option.noConfusion hf
  · by_cases h0 : w.failAt = some 0
    · have hsave : d.save w = (d, Except.error ()) :=
        Document.save_eq_fail0 w d fname hfn h0
      constructor
      · intro u herr
        rw [hsave]
        exact ⟨rfl, 0, by simp⟩
      · intro n f hokk hf
        rw [hsave] at hokk
        exact Except.noConfusion hokk
    · have hsave := Document.save_eq_of_name w d fname hfn h0 _ hrec
      dsimp only at hsave
      cases ok with
      | false =>
        rw [if_pos rfl] at hsave
        constructor
        · intro u herr
          rw [hsave]
          exact ⟨rfl, j, hshape⟩
        · intro n f hokk hf
          rw [hsave] at hokk
          exact Except.noConfusion hokk
      | true =>
        have hall : rows' = d.rows.map Row.save := hok rfl
        rw [if_neg (by simp)] at hsave
        by_cases hren : w.fileExists ∧
            (w.failAt = some k2 ∨ w.failAt = some (k2 + 1) ∨ w.failAt = some (k2 + 2))
        · rw [if_pos hren] at hsave
          constructor
          · intro u herr
            rw [hsave]
            refine ⟨rfl, d.rows.length, ?_⟩
            rw [hall]
            simp
          · intro n f hokk hf
            rw [hsave] at hokk
            exact Except.noConfusion hokk
        · rw [if_neg hren] at hsave
          constructor
          · intro u herr
            rw [hsave] at herr
            exact Except.noConfusion herr
          · intro n f hokk hf
            rw [hsave]
            exact ⟨rfl, hall⟩

/-- C7 witness: the amended error-path guarantee applied to the concrete
failing save. -/
theorem c7_witness :
    (dirtyRowDoc.save renameFailWorld).2 = Except.error () ∧
    ((dirtyRowDoc.save renameFailWorld).1.dirty = dirtyRowDoc.dirty ∧
      ∃ k, (dirtyRowDoc.save renameFailWorld).1.rows =
        (dirtyRowDoc.rows.take k).map Row.save ++ dirtyRowDoc.rows.drop k) :=
  ⟨by decide, (c7_save_markers renameFailWorld dirtyRowDoc).1 () (by decide)⟩

namespace Document

theorem getElem?_eq_some_getD {α : Type} (l : List α) (i : Nat) (a : α)
    (h : i < l.length) : l[i]? = some (l.getD i a) := by
  rw [List.getD_eq_getElem?_getD, List.getElem?_eq_getElem h]
  simp [List.getElem?_eq_getElem h]

theorem findLoop_zero (rf : Row → String → Nat → SearchDirection → Option Nat)
    (rows : List Row) (q : String) (dir : SearchDirection) (pos : Position) :
    findLoop rf rows q dir 0 pos = none := rfl

theorem findLoop_succ (rf : Row → String → Nat → SearchDirection → Option Nat)
    (rows : List Row) (q : String) (dir : SearchDirection) (fuel : Nat)
    (pos : Position) :
    findLoop rf rows q dir (fuel + 1) pos =
      (match rows[pos.y]? with
      | some r =>
        match rf r q pos.x dir with
        | some x => some ⟨x, pos.y⟩
        | none =>
          if dir = SearchDirection.forward then
            findLoop rf rows q dir fuel ⟨0, pos.y + 1⟩
          else
            findLoop rf rows q dir fuel
              ⟨(rows.getD (pos.y - 1) Row.default).len, pos.y - 1⟩
      | none => none) := rfl

theorem firstHit_nil (rf : Row → String → Nat → SearchDirection → Option Nat)
    (rows : List Row) (q : String) (dir : SearchDirection) :
    firstHit rf rows q dir [] = none := rfl

theorem firstHit_cons (rf : Row → String → Nat → SearchDirection → Option Nat)
    (rows : List Row) (q : String) (dir : SearchDirection) (p : Position)
    (ps : List Position) :
    firstHit rf rows q dir (p :: ps) =
      (match rf (rows.getD p.y Row.default) q p.x dir with
      | some x => some ⟨x, p.y⟩
      | none => firstHit rf rows q dir ps) := rfl

theorem findLoop_forward (rf : Row → String → Nat → SearchDirection → Option Nat)
    (rows : List Row) (q : String) (n : Nat) :
    ∀ (y x : Nat), y + (n + 1) = rows.length →
    findLoop rf rows q SearchDirection.forward (n + 1) ⟨x, y⟩ =
      firstHit rf rows q SearchDirection.forward
        (⟨x, y⟩ :: (List.range n).map (fun k => ⟨0, y + 1 + k⟩)) := by
  induction n with
  | zero =>
    intro y x h
    have hy : y < rows.length := by omega
    have hsome := getElem?_eq_some_getD rows y Row.default hy
    rw [findLoop_succ, firstHit_cons]
    dsimp only
    rw [hsome]
    dsimp only
    cases hr : rf (rows.getD y Row.default) q x SearchDirection.forward with
    | some xx => rfl
    | none =>
      dsimp only
      rw [if_pos rfl, findLoop_zero, List.range_zero, List.map_nil, firstHit_nil]
  | succ n ih =>
    intro y x h
    have hy : y < rows.length := by omega
    have hsome := getElem?_eq_some_getD rows y Row.default hy
    rw [findLoop_succ, firstHit_cons]
    dsimp only
    rw [hsome]
    dsimp only
    cases hr : rf (rows.getD y Row.default) q x SearchDirection.forward with
    | some xx => rfl
    | none =>
      dsimp only
      rw [if_pos rfl]
      have hstep := ih (y + 1) 0 (by omega)
      rw [hstep]
      have hmap : (List.range (n + 1)).map (fun k => (⟨0, y + 1 + k⟩ : Position)) =
          (⟨0, y + 1⟩ : Position) ::
            (List.range n).map (fun k => (⟨0, y + 1 + 1 + k⟩ : Position)) := by
        rw [List.range_succ_eq_map, List.map_cons, List.map_map]
        refine congrArg₂ _ (by simp) (List.map_congr_left ?_)
        intro k _
        simp only [Function.comp]
        congr 1
        omega
      rw [hmap, firstHit_cons]

theorem findLoop_backward (rf : Row → String → Nat → SearchDirection → Option Nat)
    (rows : List Row) (q : String) :
    ∀ (y x : Nat), y < rows.length →
    findLoop rf rows q SearchDirection.backward (y + 1) ⟨x, y⟩ =
      firstHit rf rows q SearchDirection.backward
        (⟨x, y⟩ :: (List.range y).map
          (fun k => ⟨(rows.getD (y - 1 - k) Row.default).len, y - 1 - k⟩)) := by
  intro y
  induction y with
  | zero =>
    intro x hy
    have hsome := getElem?_eq_some_getD rows 0 Row.default hy
    rw [findLoop_succ, firstHit_cons]
    dsimp only
    rw [hsome]
    dsimp only
    cases hr : rf (rows.getD 0 Row.default) q x SearchDirection.backward with
    | some xx => rfl
    | none =>
      dsimp only
      rw [if_neg (by intro hh; cases hh), findLoop_zero, List.range_zero,
        List.map_nil, firstHit_nil]
  | succ y ih =>
    intro x hy
    have hsome := getElem?_eq_some_getD rows (y + 1) Row.default hy
    rw [findLoop_succ, firstHit_cons]
    dsimp only
    rw [hsome]
    dsimp only
    cases hr : rf (rows.getD (y + 1) Row.default) q x SearchDirection.backward with
    | some xx => rfl
    | none =>
      dsimp only
      rw [if_neg (by intro hh; cases hh)]
      have hidx0 : y + 1 - 1 = y := by omega
      rw [hidx0]
      have hstep := ih ((rows.getD y Row.default).len) (by omega)
      rw [hstep]
      have hmap : (List.range (y + 1)).map
            (fun k => (⟨(rows.getD (y - k) Row.default).len, y - k⟩ : Position)) =
          (⟨(rows.getD y Row.default).len, y⟩ : Position) ::
            (List.range y).map
              (fun k => (⟨(rows.getD (y - 1 - k) Row.default).len, y - 1 - k⟩ :
                Position)) := by
        rw [List.range_succ_eq_map, List.map_cons, List.map_map]
        refine congrArg₂ _ (by simp) (List.map_congr_left ?_)
        intro k _
        simp only [Function.comp]
        have hidx : y - (k + 1) = y - 1 - k := by omega
        rw [hidx]
      rw [hmap, firstHit_cons]

end Document

/-- C8: `find` visits the start line from `pos.x` and then — forward — each
subsequent line from column 0 up to the last line, or — backward — each
prior line from its last column down to line 0, returning the first
per-line match in that visit order, `none` when every visited line misses,
and never wrapping around the buffer boundary. -/
theorem c8_find_visit_order (rf : Row → String → Nat → SearchDirection → Option Nat)
    (d : Document) (query : String) (at_ : Position)
    (direction : SearchDirection) (h : at_.y < d.len) :
    d.find rf query at_ direction = d.findSpec rf query at_ direction := by
  have h' : at_.y < d.rows.length := h
  cases direction with
  | forward =>
    unfold Document.find Document.findSpec
    rw [if_neg (by omega)]
    rw [if_pos rfl, if_pos rfl]
    dsimp only
    have hn : d.rows.length - at_.y = (d.rows.length - at_.y - 1) + 1 := by omega
    rw [hn]
    rw [Document.findLoop_forward rf d.rows query _ at_.y at_.x (by omega)]
    have hcnt : d.rows.length - (at_.y + 1) = d.rows.length - at_.y - 1 := by omega
    rw [hcnt]
  | backward =>
    unfold Document.find Document.findSpec
    rw [if_neg (by omega)]
    have hne : ¬ (SearchDirection.backward = SearchDirection.forward) := by
      intro hh; cases hh
    rw [if_neg hne, if_neg hne]
    dsimp only
    rw [Nat.sub_zero]
    rw [Document.findLoop_backward rf d.rows query at_.y at_.x h']
    refine congrArg _ (congrArg _ (List.map_congr_left ?_))
    intro k hk
    rw [List.mem_range] at hk
    have hidx : at_.y - 1 - k < d.rows.length := by omega
    rw [Document.rowLen_eq_getD d hidx]

/-- C8 witness: the visit-order equation applied with the spec-modelled
per-line search on a concrete two-line buffer. -/
theorem c8_witness :
    (⟨0, 0⟩ : Position).y < twoRowsDoc.len ∧
    twoRowsDoc.find Row.findModel "c" ⟨0, 0⟩ SearchDirection.forward =
      twoRowsDoc.findSpec Row.findModel "c" ⟨0, 0⟩ SearchDirection.forward :=
  ⟨by decide, c8_find_visit_order Row.findModel twoRowsDoc "c" ⟨0, 0⟩
    SearchDirection.forward (by decide)⟩

theorem getD_append_left {α : Type} (l1 l2 : List α) (j : Nat) (a : α)
    (h : j < l1.length) : (l1 ++ l2).getD j a = l1.getD j a := by
  simp only [List.getD_eq_getElem?_getD, List.getElem?_append, if_pos h]

theorem getD_append_boundary {α : Type} (l1 : List α) (v : α) (a : α) :
    (l1 ++ [v]).getD l1.length a = v := by
  simp only [List.getD_eq_getElem?_getD, List.getElem?_append_right (Nat.le_refl _),
    Nat.sub_self]
  rfl

theorem getD_append_boundary_of_len {α : Type} (l1 : List α) (v a : α) (n : Nat)
    (h : l1.length = n) : (l1 ++ [v]).getD n a = v := by
  subst h
  exact getD_append_boundary l1 v a

theorem getD_take_lt {α : Type} (l : List α) (n j : Nat) (a : α) (h : j < n) :
    (l.take n).getD j a = l.getD j a := by
  simp only [List.getD_eq_getElem?_getD, List.getElem?_take, if_pos h]

theorem getD_set_self {α : Type} (l : List α) (i : Nat) (v : α) (a : α)
    (h : i < l.length) : (l.set i v).getD i a = v := by
  simp only [List.getD_eq_getElem?_getD, List.getElem?_set, if_pos rfl, if_pos h]
  rfl

theorem getD_set_ne {α : Type} (l : List α) (i j : Nat) (v : α) (a : α)
    (h : ¬ i = j) : (l.set i v).getD j a = l.getD j a := by
  simp only [List.getD_eq_getElem?_getD, List.getElem?_set, if_neg h]

theorem readjustPos_content_congr (d1 d2 : Document) (h : d1.content = d2.content)
    (p : CursorPosition) : Editor.readjustPos d1 p = Editor.readjustPos d2 p := by
  have hmap : ∀ y : Nat, d1.rows[y]?.map Row.chars = d2.rows[y]?.map Row.chars := by
    intro y
    have hy := congrArg (fun l : List (List Grapheme) => l[y]?) h
    simpa [Document.content, List.getElem?_map] using hy
  have hlen : d1.rows.length = d2.rows.length := by
    have hl := congrArg List.length h
    simpa [Document.content] using hl
  have hdl : d1.len = d2.len := hlen
  unfold Editor.readjustPos Document.row
  rw [hdl]
  dsimp only
  rcases h1 : d1.rows[if p.y > d2.len then d2.len else p.y]? with _ | r1 <;>
    rcases h2 : d2.rows[if p.y > d2.len then d2.len else p.y]? with _ | r2
  · rfl
  · have := hmap (if p.y > d2.len then d2.len else p.y)
    rw [h1, h2] at this
    exact absurd this (by simp)
  · have := hmap (if p.y > d2.len then d2.len else p.y)
    rw [h1, h2] at this
    exact absurd this (by simp)
  · have hc := hmap (if p.y > d2.len then d2.len else p.y)
    rw [h1, h2] at hc
    simp only [Option.map_some'] at hc
    injection hc with hcc
    have hrl : r1.len = r2.len := by
      simp only [Row.len, hcc]
    dsimp only
    rw [hrl]

theorem content_clone (d : Document) : d.clone.content = d.content := rfl

theorem doc_edit_normal_eq (e : Editor) (f : Document → Document)
    (hmode : e.mode = Mode.normal) (hwf : e.version_index < e.versions.length) :
    e.doc_edit f =
      { e with
        document := (f e.document).clone,
        versions :=
          ((e.versions.set e.version_index
            { e.versions.getD e.version_index Version.default with
                position := e.cursor_position }).take (e.version_index + 1)) ++
          [⟨(f e.document).clone, e.cursor_position⟩],
        version_index := e.version_index + 1,
        has_saved := false } := by
  have hne : e.mode ≠ Mode.insert := by rw [hmode]; intro hh; cases hh
  unfold Editor.doc_edit
  rw [if_pos hne, if_pos hne]
  unfold Editor.save_prev_cursor_position Editor.add_version
  dsimp only
  simp only [List.length_set]
  by_cases hc : e.version_index = e.versions.length - 1
  · rw [if_neg (by omega : ¬ e.version_index ≠ e.versions.length - 1)]
    rw [show (e.versions.set e.version_index
        { e.versions.getD e.version_index Version.default with
            position := e.cursor_position }).take (e.version_index + 1) =
        e.versions.set e.version_index
          { e.versions.getD e.version_index Version.default with
              position := e.cursor_position } from
      List.take_of_length_le (by simp only [List.length_set]; omega)]
    rw [getD_set_self _ _ _ _ hwf]
    congr 1
    simp only [List.length_append, List.length_set, List.length_cons, List.length_nil]
    omega
  · rw [if_pos (by omega : e.version_index ≠ e.versions.length - 1)]
    rw [getD_take_lt _ _ _ _ (Nat.lt_succ_self _), getD_set_self _ _ _ _ hwf]
    congr 1
    simp only [List.length_append, List.length_take, List.length_set, List.length_cons,
      List.length_nil]
    omega

theorem undo_eq (s : Editor) (hnz : ¬ s.version_index = 0) :
    s.undo = { s with
      version_index := s.version_index - 1,
      document := (s.versions.getD (s.version_index - 1) Version.default).document.clone,
      cursor_position := Editor.readjustPos
        ((s.versions.getD (s.version_index - 1) Version.default).document.clone)
        ((s.versions.getD (s.version_index - 1) Version.default).position) } := by
  unfold Editor.undo Editor.readjust_cursor
  rw [if_neg hnz]

theorem redo_eq (s : Editor) (hne : ¬ s.version_index = s.versions.length - 1) :
    s.redo = { s with
      version_index := s.version_index + 1,
      document := (s.versions.getD (s.version_index + 1) Version.default).document.clone,
      cursor_position := Editor.readjustPos
        ((s.versions.getD (s.version_index + 1) Version.default).document.clone)
        ((s.versions.getD s.version_index Version.default).position) } := by
  unfold Editor.redo Editor.readjust_cursor
  rw [if_neg hne]

theorem undo_move_cursor (e : Editor) (k : MKey) (hnz : ¬ e.version_index = 0) :
    (e.move_cursor k).undo = e.undo := by
  rcases h : e.move_cursor_step k with ⟨a, y, mx⟩
  have h1 : ¬ (e.move_cursor k).version_index = 0 := by
    simp only [Editor.move_cursor, h]
    exact hnz
  rw [undo_eq _ h1, undo_eq _ hnz]
  simp only [Editor.move_cursor, h]

/-- C2 (counterexample): the `p`-style command flow — an `insert_line` edit
committed in Normal mode followed by the command's `move_cursor(Down)` —
leaves the post-edit cursor at `(0, 1)`; `undo` restores the pre-edit
buffer and cursor, but `redo` immediately after restores the post-edit
buffer with the cursor at the commit-time checkpoint `(0, 0)`, not the
post-edit cursor position, refuting the claim's redo clause. -/
theorem c2_redo_cursor_counterexample :
    ((normalModeEditor.doc_edit (fun d => d.insert_line 0 "zz")).move_cursor
        MKey.down).cursor_position = ⟨0, 1, 0⟩ ∧
    (((normalModeEditor.doc_edit (fun d => d.insert_line 0 "zz")).move_cursor
        MKey.down).undo).document.content = normalModeEditor.document.content ∧
    (((normalModeEditor.doc_edit (fun d => d.insert_line 0 "zz")).move_cursor
        MKey.down).undo).cursor_position = normalModeEditor.cursor_position ∧
    ((((normalModeEditor.doc_edit (fun d => d.insert_line 0 "zz")).move_cursor
        MKey.down).undo).redo).document.content =
      (((normalModeEditor.doc_edit (fun d => d.insert_line 0 "zz")).move_cursor
        MKey.down)).document.content ∧
    ¬ ((((normalModeEditor.doc_edit (fun d => d.insert_line 0 "zz")).move_cursor
        MKey.down).undo).redo).cursor_position =
      (((normalModeEditor.doc_edit (fun d => d.insert_line 0 "zz")).move_cursor
        MKey.down)).cursor_position := by decide

/-- C2 (amended): after a single edit committed in Normal mode, followed by
the command's trailing cursor motion (any `move_cursor` key, `other` for
none), `undo` restores the pre-edit buffer content and cursor; `redo`
immediately after that `undo` restores the post-edit buffer content but
places the cursor at the commit-time checkpoint — the pre-edit cursor
re-clamped against the post-edit buffer — not at the post-edit cursor
position; and committing a new edit after the `undo` truncates the versions
beyond the current index before appending, so the slot that held the redone
edit now holds the new edit's snapshot and the earlier snapshots are
untouched (the redo branch is discarded). -/
theorem c2_undo_redo_amended (e : Editor) (f g : Document → Document) (k : MKey)
    (hmode : e.mode = Mode.normal)
    (hwf : e.version_index < e.versions.length)
    (hsync : (e.versions.getD e.version_index Version.default).document.content =
      e.document.content)
    (hfix1 : Editor.readjustPos e.document e.cursor_position = e.cursor_position) :
    (((e.doc_edit f).move_cursor k).undo).document.content = e.document.content ∧
    (((e.doc_edit f).move_cursor k).undo).cursor_position = e.cursor_position ∧
    ((((e.doc_edit f).move_cursor k).undo).redo).document.content =
      (f e.document).content ∧
    ((((e.doc_edit f).move_cursor k).undo).redo).cursor_position =
      Editor.readjustPos (f e.document) e.cursor_position ∧
    ((((e.doc_edit f).move_cursor k).undo).doc_edit g).versions.length =
      e.version_index + 2 ∧
    (((((e.doc_edit f).move_cursor k).undo).doc_edit g).versions.getD
        (e.version_index + 1) Version.default).document.content =
      (g (((e.doc_edit f).move_cursor k).undo).document).content ∧
    (∀ j, j ≤ e.version_index →
      (((((e.doc_edit f).move_cursor k).undo).doc_edit g).versions.getD j
          Version.default).document =
        ((((e.doc_edit f).move_cursor k).undo).versions.getD j
          Version.default).document) := by
  have hidx : ¬ (e.doc_edit f).version_index = 0 := by
    rw [doc_edit_normal_eq e f hmode hwf]
    dsimp only
    omega
  rw [undo_move_cursor _ k hidx]
  rw [doc_edit_normal_eq e f hmode hwf]
  set pv : Version :=
    { e.versions.getD e.version_index Version.default with
        position := e.cursor_position } with hpv
  set A : List Version :=
    (e.versions.set e.version_index pv).take (e.version_index + 1) with hA
  set v1 : Version := ⟨(f e.document).clone, e.cursor_position⟩ with hv1
  have hAlen : A.length = e.version_index + 1 := by
    rw [hA]
    simp only [List.length_take, List.length_set]
    omega
  have hgetDi : (A ++ [v1]).getD e.version_index Version.default = pv := by
    rw [getD_append_left _ _ _ _ (by omega), hA,
      getD_take_lt _ _ _ _ (Nat.lt_succ_self _), getD_set_self _ _ _ _ hwf]
  have hgetDi1 : (A ++ [v1]).getD (e.version_index + 1) Version.default = v1 := by
    rw [← hAlen, getD_append_boundary]
  have hpvpos : pv.position = e.cursor_position := by rw [hpv]
  have hpvdoc : pv.document = (e.versions.getD e.version_index Version.default).document := by
    rw [hpv]
  have hpvcont : pv.document.clone.content = e.document.content := by
    rw [content_clone, hpvdoc]
    exact hsync
  have hv1doc : v1.document = (f e.document).clone := by rw [hv1]
  have hv1pos : v1.position = e.cursor_position := by rw [hv1]
  rw [undo_eq _ (by dsimp only; omega)]
  dsimp only
  simp only [Nat.add_sub_cancel, hgetDi, hpvpos]
  have hcur1 : Editor.readjustPos (pv.document.clone) e.cursor_position =
      e.cursor_position := by
    rw [readjustPos_content_congr _ e.document hpvcont, hfix1]
  rw [hcur1]
  refine ⟨hpvcont, rfl, ?_⟩
  rw [redo_eq _ (by
    dsimp only
    simp only [List.length_append, List.length_cons, List.length_nil]
    omega)]
  dsimp only
  simp only [hgetDi, hgetDi1, hpvpos, hv1doc]
  have hv1cont : ((f e.document).clone).clone.content = (f e.document).content := by
    rw [content_clone, content_clone]
  have hcur2 : Editor.readjustPos ((f e.document).clone.clone) e.cursor_position =
      Editor.readjustPos (f e.document) e.cursor_position :=
    readjustPos_content_congr _ (f e.document) hv1cont e.cursor_position
  rw [hcur2]
  refine ⟨hv1cont, rfl, ?_⟩
  rw [doc_edit_normal_eq _ g (by dsimp only; exact hmode) (by
    dsimp only
    simp only [List.length_append, List.length_cons, List.length_nil]
    omega)]
  dsimp only
  set pv2 : Version := { (A ++ [v1]).getD e.version_index Version.default with
      position := e.cursor_position } with hpv2
  set v2 : Version := ⟨(g (pv.document.clone)).clone, e.cursor_position⟩ with hv2
  have hsetlen : ((A ++ [v1]).set e.version_index pv2).length = e.version_index + 2 := by
    simp only [List.length_set, List.length_append, List.length_cons, List.length_nil]
    omega
  have htakelen : (((A ++ [v1]).set e.version_index pv2).take
      (e.version_index + 1)).length = e.version_index + 1 := by
    simp only [List.length_take, hsetlen]
    omega
  refine ⟨?_, ?_, ?_⟩
  · simp only [List.length_append, htakelen, List.length_cons, List.length_nil]
  · rw [getD_append_boundary_of_len _ _ _ _ htakelen, hv2]
    dsimp only
    rw [content_clone, hpvdoc]
  · intro j hj
    rw [getD_append_left _ _ _ _ (by omega), getD_take_lt _ _ _ _ (by omega)]
    by_cases hji : e.version_index = j
    · rw [← hji, getD_set_self _ _ _ _ (by
        simp only [List.length_append, List.length_cons, List.length_nil]
        omega)]
    · rw [getD_set_ne _ _ _ _ _ hji]

/-- C2 witness: the amended undo/redo guarantees applied on a concrete
freshly opened editor, a concrete edit with its trailing motion, and a
concrete follow-up edit. -/
theorem c2_amended_witness :
    (normalModeEditor.mode = Mode.normal ∧
      normalModeEditor.version_index < normalModeEditor.versions.length ∧
      (normalModeEditor.versions.getD normalModeEditor.version_index
        Version.default).document.content = normalModeEditor.document.content ∧
      Editor.readjustPos normalModeEditor.document normalModeEditor.cursor_position =
        normalModeEditor.cursor_position) ∧
    (((normalModeEditor.doc_edit (fun d => d.insert_line 0 "zz")).move_cursor
        MKey.down).undo).document.content = normalModeEditor.document.content ∧
    ((((normalModeEditor.doc_edit (fun d => d.insert_line 0 "zz")).move_cursor
        MKey.down).undo).redo).cursor_position =
      Editor.readjustPos ((fun d => d.insert_line 0 "zz") normalModeEditor.document)
        normalModeEditor.cursor_position :=
  ⟨⟨by decide, by decide, by decide, by decide⟩,
   (c2_undo_redo_amended normalModeEditor (fun d => d.insert_line 0 "zz")
      (fun d => d.insert ⟨0, 0⟩ 'Y') MKey.down (by decide) (by decide) (by decide)
      (by decide)).1,
   (c2_undo_redo_amended normalModeEditor (fun d => d.insert_line 0 "zz")
      (fun d => d.insert ⟨0, 0⟩ 'Y') MKey.down (by decide) (by decide) (by decide)
      (by decide)).2.2.2.1⟩

theorem wf_add_version (e : Editor) (h : Editor.versionsWF e) :
    Editor.versionsWF e.add_version := by
  obtain ⟨h1, h2⟩ := h
  unfold Editor.add_version Editor.versionsWF
  dsimp only
  constructor
  · simp only [List.length_append, List.length_cons, List.length_nil]
    omega
  · simp only [List.length_append, List.length_cons, List.length_nil]
    omega

theorem wf_undo (e : Editor) (h : Editor.versionsWF e) : Editor.versionsWF e.undo := by
  obtain ⟨h1, h2⟩ := h
  by_cases hz : e.version_index = 0
  · unfold Editor.undo
    rw [if_pos hz]
    exact ⟨h1, h2⟩
  · rw [undo_eq e hz]
    unfold Editor.versionsWF
    dsimp only
    exact ⟨h1, by omega⟩

theorem wf_redo (e : Editor) (h : Editor.versionsWF e) : Editor.versionsWF e.redo := by
  obtain ⟨h1, h2⟩ := h
  by_cases hc : e.version_index = e.versions.length - 1
  · unfold Editor.redo
    rw [if_pos hc]
    exact ⟨h1, h2⟩
  · rw [redo_eq e hc]
    unfold Editor.versionsWF
    dsimp only
    exact ⟨h1, by omega⟩

theorem wf_doc_edit (e : Editor) (f : Document → Document)
    (h : Editor.versionsWF e) : Editor.versionsWF (e.doc_edit f) := by
  obtain ⟨h1, h2⟩ := h
  unfold Editor.doc_edit
  by_cases hm : e.mode ≠ Mode.insert
  · rw [if_pos hm, if_pos hm]
    apply wf_add_version
    unfold Editor.save_prev_cursor_position Editor.versionsWF
    dsimp only
    simp only [List.length_set]
    exact ⟨h1, h2⟩
  · rw [if_neg hm, if_neg hm]
    exact ⟨h1, h2⟩

/-- C10: the versions list is non-empty and `version_index` a valid index:
this holds for both initial version lists (no file / opened file, each a
single snapshot with index 0, as also installed by the `:e` command) and is
preserved by `add_version`, `undo`, `redo`, and the `doc_edit` wrapper
around every buffer edit — so `versions[version_index]` and
`versions.len() - 1` never fail. -/
theorem c10_versions_invariant :
    (0 < Editor.initialVersions.1.length ∧
      Editor.initialVersions.2 < Editor.initialVersions.1.length) ∧
    (∀ d : Document, 0 < (Editor.open_document d).1.length ∧
      (Editor.open_document d).2 < (Editor.open_document d).1.length) ∧
    (∀ e : Editor, Editor.versionsWF e → Editor.versionsWF e.add_version) ∧
    (∀ e : Editor, Editor.versionsWF e → Editor.versionsWF e.undo) ∧
    (∀ e : Editor, Editor.versionsWF e → Editor.versionsWF e.redo) ∧
    (∀ (e : Editor) (f : Document → Document),
      Editor.versionsWF e → Editor.versionsWF (e.doc_edit f)) :=
  ⟨⟨by decide, by decide⟩,
   fun _ => ⟨by simp [Editor.open_document], by simp [Editor.open_document]⟩,
   wf_add_version, wf_undo, wf_redo, wf_doc_edit⟩

/-- C10 witness: the invariant holds for a concrete opened editor and is
carried through a concrete `add_version`. -/
theorem c10_witness :
    Editor.versionsWF normalModeEditor ∧
    Editor.versionsWF normalModeEditor.add_version :=
  ⟨by decide, c10_versions_invariant.2.2.1 normalModeEditor (by decide)⟩
